import Mathlib

/-!
Shallow embedding of the batch translation engine of the `autosub` repository
(`Library/Tools/autosub/smart_translate.py` and `Library/Tools/common/llm_utils.py`),
together with theorems settling the specification claims about it.

Text is modelled as `List Char`.  Python builtins used by the code are modelled
explicitly below (`pyIsSpace` for `str.strip`/`\s`, `pyIsAlpha` for `str.isalpha`
on the character ranges this code exercises, `stripChars` for `str.strip`,
`containsSub` for the `in` substring test, `splitLines` for `str.split('\n')`).
The float comparison `ascii_ratio > 0.7` is modelled exactly as the rational
comparison `10 * ascii_count > 7 * alpha_count`.
-/

/-- Text, modelled as a list of characters. -/
abbrev Str := List Char

/-- Coerce a Lean string literal to the `Str` representation. -/
def str (s : String) : Str := s.data

/-- Models Python whitespace (`str.strip`, regex `\s`) for the ASCII whitespace
characters: space, tab, newline, carriage return, vertical tab, form feed. -/
def pyIsSpace (c : Char) : Bool :=
  c.toNat = 32 || c.toNat = 9 || c.toNat = 10 || c.toNat = 13 || c.toNat = 11 || c.toNat = 12

/-- Models Python `str.strip()`: drop leading and trailing whitespace. -/
def stripChars (s : Str) : Str :=
  ((s.dropWhile pyIsSpace).reverse.dropWhile pyIsSpace).reverse

/-- Models the Python substring test `needle in hay`. -/
def containsSub (needle : Str) : Str → Bool
  | [] => needle.isEmpty
  | c :: t => needle.isPrefixOf (c :: t) || containsSub needle t

/-- Models Python `text.split('\n')`. -/
def splitLines (s : Str) : List Str :=
  s.splitOn '\n'

/-- A character in the CJK unified ideograph range `U+4E00`-`U+9FFF`
(the regex `[一-鿿]` in `is_untranslated`). -/
def isCJK (c : Char) : Bool :=
  0x4e00 ≤ c.toNat && c.toNat ≤ 0x9fff

/-- Models Python `str.isalpha` on the character ranges this code exercises:
ASCII letters and CJK unified ideographs. -/
def pyIsAlpha (c : Char) : Bool :=
  (65 ≤ c.toNat && c.toNat ≤ 90) || (97 ≤ c.toNat && c.toNat ≤ 122) ||
    (0x4e00 ≤ c.toNat && c.toNat ≤ 0x9fff)

/-- An ASCII letter. -/
def isAsciiAlpha (c : Char) : Bool :=
  (65 ≤ c.toNat && c.toNat ≤ 90) || (97 ≤ c.toNat && c.toNat ≤ 122)

/-- Models Python `" ".join(lines)`. -/
def joinSpace (lines : List Str) : Str :=
  List.intercalate [' '] lines

/-- Models Python `str(n)` for a non-negative block index. -/
def natKey (n : Nat) : Str :=
  (Nat.repr n).data

/-- A subtitle block, the engine's segment type.  Mirrors the dict produced by
the external SRT parser: a stable integer `index`, the translatable `lines`,
and the timing fields (`tstart`/`tend`), which the engine copies but never
writes. -/
structure Block where
  index : Nat
  lines : List Str
  tstart : Str
  tend : Str
deriving DecidableEq, Repr

instance : Inhabited Block := ⟨⟨0, [], [], []⟩⟩

/-- Models the anchored regex match `re.match(r'\[(\d+)\]\s*(.*)', line.strip())`
followed by `content.strip()`: on success returns the digit string of the
identifier and the trimmed content. -/
def parseLine (line : Str) : Option (Str × Str) :=
  match stripChars line with
  | '[' :: rest =>
    let ds := rest.takeWhile Char.isDigit
    if ds.isEmpty then none
    else
      match rest.drop ds.length with
      | ']' :: rest2 => some (ds, stripChars (rest2.dropWhile pyIsSpace))
      | _ => none
  | _ => none

example : parseLine (str "[12] hello there ") = some (str "12", str "hello there") := by decide
example : parseLine (str "[3]") = some (str "3", []) := by decide
example : parseLine (str "no id here") = none := by decide
example : parseLine (str "[]x") = none := by decide
example : containsSub (str "ab") (str "xxabyy") = true := by decide
example : containsSub (str "ab") (str "xa by") = false := by decide
example : stripChars (str "  a b  ") = str "a b" := by decide

/-! ### `llm_utils.py`: provider routing, request executor, batch dispatch, rate limiter -/

/-- The `LLMProvider` enum of `llm_utils.py`. -/
inductive LLMProvider where
  | gemini
  | openai
  | moonshot
  | dashscope
  | zhipu
  | deepseek
  | siliconflow
deriving DecidableEq, Repr

/-- Models Python `str.lower()` (ASCII case folding, the range these model
identifiers use). -/
def toLowerStr (s : Str) : Str :=
  s.map Char.toLower

/-- `LLMClient._get_provider`: resolve a model identifier to a provider by
substring matching on the lower-cased name, defaulting to Gemini. -/
def _get_provider (model_name : Str) : LLMProvider :=
  let m := toLowerStr model_name
  if containsSub (str "gpt") m then .openai
  else if containsSub (str "moonshot") m || containsSub (str "kimi") m then .moonshot
  else if containsSub (str "qwen") m then .dashscope
  else if containsSub (str "glm") m then .zhipu
  else if containsSub (str "deepseek") m then .deepseek
  else .gemini

/-- Outcome of one HTTP round trip, as observed by the request executor:
either a well-formed success body whose extracted content is a string, or one
of the failure modes the Python code turns into an exception
(`requests` transport error, `raise_for_status` on a non-2xx status, or a
body from which `choices[0].message.content` cannot be extracted). -/
inductive HttpOutcome where
  | ok (content : Str)
  | transportError
  | httpError (status : Nat)
  | malformedBody
deriving DecidableEq, Repr

/-- `LLMClient._call_openai_compatible`: missing key returns `None`; otherwise
one request is issued and any failure outcome is caught and turned into
`None`; a success body yields the stripped content string. -/
def _call_openai_compatible (api_key : Option Str) (outcome : HttpOutcome) : Option Str :=
  match api_key with
  | none => none
  | some _ =>
    match outcome with
    | .ok content => some (stripChars content)
    | .transportError => none
    | .httpError _ => none
    | .malformedBody => none

/-- `LLMClient._call_gemini`: missing key returns `None`; an empty reply text
is falsy and yields `None`; any raised error is caught and yields `None`. -/
def _call_gemini (api_key : Option Str) (outcome : HttpOutcome) : Option Str :=
  match api_key with
  | none => none
  | some _ =>
    match outcome with
    | .ok content => if content.isEmpty then none else some (stripChars content)
    | .transportError => none
    | .httpError _ => none
    | .malformedBody => none

/-- `LLMClient.generate_content`: resolve the provider from the model name and
dispatch to the matching helper with that provider's configured key.  `keys`
is the `api_keys` table built in `__init__`; `outcome` abstracts the single
HTTP round trip of this invocation. -/
def generate_content (model_name : Str) (keys : LLMProvider → Option Str)
    (outcome : HttpOutcome) : Option Str :=
  match _get_provider model_name with
  | .gemini => _call_gemini (keys .gemini) outcome
  | .openai => _call_openai_compatible (keys .openai) outcome
  | .moonshot => _call_openai_compatible (keys .moonshot) outcome
  | .dashscope => _call_openai_compatible (keys .dashscope) outcome
  | .zhipu => _call_openai_compatible (keys .zhipu) outcome
  | .deepseek => _call_openai_compatible (keys .deepseek) outcome
  | .siliconflow => _call_openai_compatible (keys .siliconflow) outcome

/-- A variant of `generate_content` whose SiliconFlow branch is replaced by a
sentinel value.  Proving it extensionally equal to `generate_content` shows the
SiliconFlow dialect branch is unreachable. -/
def generate_content_markSiliconflow (model_name : Str) (keys : LLMProvider → Option Str)
    (outcome : HttpOutcome) : Option Str :=
  match _get_provider model_name with
  | .gemini => _call_gemini (keys .gemini) outcome
  | .openai => _call_openai_compatible (keys .openai) outcome
  | .moonshot => _call_openai_compatible (keys .moonshot) outcome
  | .dashscope => _call_openai_compatible (keys .dashscope) outcome
  | .zhipu => _call_openai_compatible (keys .zhipu) outcome
  | .deepseek => _call_openai_compatible (keys .deepseek) outcome
  | .siliconflow => some (str "SILICONFLOW-BRANCH-TAKEN")

/-- A task handed to `generate_batch` (named `Task` here only up to the clash
with the core library): the dict
`{'index': chunk_index, 'chunk': chunk, 'prompt': prompt}`. -/
structure BatchTask where
  index : Nat
  chunk : List Block
  prompt : Str
deriving DecidableEq, Repr

/-- A result of `generate_batch`: the task's fields plus the `result` text
(`{**task, 'result': result_text}`). -/
structure Res where
  index : Nat
  chunk : List Block
  prompt : Str
  result : Option Str
deriving DecidableEq, Repr

/-- The task fields of a result. -/
def Res.task (r : Res) : BatchTask := ⟨r.index, r.chunk, r.prompt⟩

/-- `LLMClient.generate_batch`: every task is submitted to the worker pool and
its result is appended in *completion* order.  The abstract oracle maps a
prompt to the `generate_content` reply for this round; `order` is the order in
which worker completions arrive, as positions into `tasks` (a permutation of
`List.range tasks.length` for a real run). -/
def generate_batch (tasks : List BatchTask) (oracle : Str → Option Str)
    (order : List Nat) : List Res :=
  order.filterMap fun i =>
    (tasks.get? i).map fun t => ⟨t.index, t.chunk, t.prompt, oracle t.prompt⟩

/-- Ordering of results by chunk index, the sort key `lambda x: x['index']`
used by the callers of `generate_batch`. -/
def resLE (a b : Res) : Prop := a.index ≤ b.index

instance : DecidableRel resLE := fun a b => Nat.decLe a.index b.index

instance : IsTotal Res resLE := ⟨fun a b => Nat.le_total a.index b.index⟩

instance : IsTrans Res resLE := ⟨fun _ _ _ h h' => Nat.le_trans h h'⟩

/-- `results.sort(key=lambda x: x['index'])` as performed by the callers. -/
def sortResults (results : List Res) : List Res :=
  List.insertionSort resLE results

/-- `RateLimiter.__init__`: `self.interval = 60.0 / rpm`. -/
def RateLimiter.interval (rpm : ℚ) : ℚ := 60 / rpm

/-- The critical section of `RateLimiter.wait`, executed under `self.lock`:
from the shared `last_request_time` and the current clock it computes the new
`last_request_time` and the `sleep_time` to be slept *after* the lock is
released.  Returns `(new last_request_time, sleep_time)`. -/
def RateLimiter.wait (interval last now : ℚ) : ℚ × ℚ :=
  let next_available := last + interval
  if now < next_available then (next_available, next_available - now)
  else (now, 0)

/-- Admission times of a sequence of `RateLimiter.wait` calls.  The lock
serializes the critical sections; `times` lists the clock readings taken by
successive lock holders, and each call is admitted (returns to its caller)
after sleeping `sleep_time` outside the lock, i.e. at `now + sleep_time`. -/
def RateLimiter.admissions (interval last : ℚ) : List ℚ → List ℚ
  | [] => []
  | t :: ts =>
    let r := RateLimiter.wait interval last t
    (t + r.2) :: RateLimiter.admissions interval r.1 ts

/-! ### `smart_translate.py`: the translation engine -/

/-- The `BATCH = 20` constant of `translate_blocks`. -/
def BATCH : Nat := 20

/-- Fuel-indexed worker for `chunksOfBatch`; fuel `l.length` always suffices
because every step consumes at least one block. -/
def chunksOfBatchFuel : Nat → List Block → List (List Block)
  | 0, _ => []
  | _ + 1, [] => []
  | f + 1, b :: t => ((b :: t).take BATCH) :: chunksOfBatchFuel f ((b :: t).drop BATCH)

/-- The chunking loop `for i in range(0, total, BATCH): blocks[i:i + BATCH]`. -/
def chunksOfBatch (l : List Block) : List (List Block) :=
  chunksOfBatchFuel l.length l

/-- The per-block line of the prompt input text in `translate_blocks`:
`" ".join(block['lines']).replace("\n", " ").strip()`. -/
def blockLineText (b : Block) : Str :=
  stripChars ((joinSpace b.lines).map fun c => if c = '\n' then ' ' else c)

/-- The accumulated `input_text` of one chunk in `translate_blocks`:
`input_text += f"[{block['index']}] {text}\n"`. -/
def inputTextOf (chunk : List Block) : Str :=
  chunk.foldl (fun acc b =>
    acc ++ str "[" ++ natKey b.index ++ str "] " ++ blockLineText b ++ str "\n") []

/-- The prompt f-string of `translate_blocks`. -/
def buildPrompt (style verb hum knowl input_text : Str) : Str :=
  str "You are an expert subtitle translator and editor.\nTranslate the following English subtitles into Simplified Chinese.\n\n### STEP 1: VERBALIZATION (Tone & Persona)\n"
    ++ verb
    ++ str "...\nTARGET STYLE: "
    ++ style
    ++ str "\n\n### STEP 2: DOMAIN KNOWLEDGE & ASR CORRECTION\n"
    ++ knowl
    ++ str "\n\n### STEP 3: HUMANIZATION (De-AI)\n"
    ++ hum
    ++ str "...\n\n### STEP 4: CONTEXT AWARENESS\nINPUT BLOCK:\n"
    ++ input_text
    ++ str "\n\nOUTPUT FORMAT (STRICT — one line per segment, no extra text):\n[ID] Translated Text\n...\n"

/-- The task list built by `translate_blocks`: one task per chunk, with
`'index': i // BATCH`. -/
def mkTasks (blocks : List Block) (style verb hum knowl : Str) : List BatchTask :=
  (chunksOfBatch blocks).enum.map fun p =>
    ⟨p.1, p.2, buildPrompt style verb hum knowl (inputTextOf p.2)⟩

/-- Lookup in the reply map, most recent insertion first (Python dict
assignment semantics under the prepend representation used below). -/
def mapLookup (k : Str) : List (Str × Str) → Option Str
  | [] => none
  | p :: t => if p.1 = k then some p.2 else mapLookup k t

/-- The guarded parse loop of `translate_blocks` over one raw reply: every
line matching `\[(\d+)\]\s*(.*)` with non-empty trimmed content is written to
the map (`if content: translated_map[idx] = content`); entries are prepended so
that `mapLookup` sees the latest write. -/
def parseReplyGuarded (m : List (Str × Str)) (text : Str) : List (Str × Str) :=
  (splitLines text).foldl (fun m line =>
    match parseLine line with
    | some (idx, content) => if content.isEmpty then m else (idx, content) :: m
    | none => m) m

/-- The full reply map of `translate_blocks`: fold the guarded parse over all
results, skipping falsy (`None` or empty) result texts. -/
def translatedMapOf (results : List Res) : List (Str × Str) :=
  results.foldl (fun m r =>
    match r.result with
    | some text => if text.isEmpty then m else parseReplyGuarded m text
    | none => m) []

/-- The merge step of `translate_blocks`: copy the block and replace `lines`
when its identifier has an entry in the reply map; otherwise keep it. -/
def mergeBlock (m : List (Str × Str)) (b : Block) : Block :=
  match mapLookup (natKey b.index) m with
  | some t => { b with lines := [t] }
  | none => b

/-- The reply map a `translate_blocks` run builds from its batch results. -/
def replyMapOf (blocks : List Block) (style verb hum knowl : Str)
    (oracle : Str → Option Str) (order : List Nat) : List (Str × Str) :=
  translatedMapOf (sortResults (generate_batch (mkTasks blocks style verb hum knowl) oracle order))

/-- `translate_blocks`: chunk the blocks, dispatch all chunk prompts through
`generate_batch`, sort the results by chunk index, build the guarded reply
map, and merge back over the original block list.  The `client`/`model`
arguments of the source are abstracted into the `oracle` reply function;
`order` is the completion order of the batch workers. -/
def translate_blocks (blocks : List Block) (style verb hum knowl : Str)
    (oracle : Str → Option Str) (order : List Nat) : List Block :=
  blocks.map (mergeBlock (replyMapOf blocks style verb hum knowl oracle order))

/-- The per-block line of the prompt input text in `smart_translate_chunk`:
`" ".join(block['lines']).replace("\n", " ")` (no `strip` at this site). -/
def chunkLineText (b : Block) : Str :=
  (joinSpace b.lines).map fun c => if c = '\n' then ' ' else c

/-- The prompt f-string of `smart_translate_chunk`. -/
def buildChunkPrompt (style verbRules humRules input_text : Str) : Str :=
  str "\nYou are an expert subtitle translator and editor.\nTranslate the following English subtitles into Simplified Chinese.\n\n### STEP 1: VERBALIZATION (Tone & Persona)\n"
    ++ verbRules
    ++ str "... (Truncated for brevity)\nTARGET STYLE: "
    ++ style
    ++ str "\n- \"Casual\": Natural, spoken Chinese. Use \"其实\", \"也就是说\".\n- \"Tech\": Accurate terminology. \"Code\" -> \"代码\", \"Agent\" -> \"智能体\".\n- \"Edgy\": Short, punchy, impactful.\n\n### STEP 2: HUMANIZATION (De-AI)\n"
    ++ humRules
    ++ str "... (Truncated for brevity)\n- NO \"translationese\".\n- NO \"此外\", \"意味着\", \"不可或缺\".\n- NO long dashes \"——\".\n- Vary sentence length.\n\n### STEP 3: CONTEXT AWARENESS\n- Use the provided Context Lines (if any) to understand the meaning, but ONLY translate the Target Line.\n- If a sentence is split across lines, translate the PARTIAL meaning naturaly for that time slot.\n\nINPUT BLOCK:\n"
    ++ input_text
    ++ str "\n\nOUTPUT FORMAT:\n[ID] Translated Text\n...\n"

/-- `smart_translate_chunk`: one prompt for the whole chunk; a falsy reply
returns the chunk unchanged; otherwise every line matching the identifier
pattern is written to the map with NO empty-content guard
(`translated_map[idx] = content`), and the merge replaces `lines` for every
identifier present in the map, keeping the original lines otherwise. -/
def smart_translate_chunk (chunk_blocks : List Block) (style verbRules humRules : Str)
    (oracle : Str → Option Str) : List Block :=
  let input_text := chunk_blocks.foldl (fun acc b =>
    acc ++ str "[" ++ natKey b.index ++ str "] " ++ chunkLineText b ++ str "\n") []
  let prompt := buildChunkPrompt style verbRules humRules input_text
  match oracle prompt with
  | none => chunk_blocks
  | some t =>
    if t.isEmpty then chunk_blocks
    else
      let m := (splitLines t).foldl (fun m line =>
        match parseLine line with
        | some (idx, content) => (idx, content) :: m
        | none => m) []
      chunk_blocks.map fun b =>
        match mapLookup (natKey b.index) m with
        | some c => { b with lines := [c] }
        | none => { b with lines := b.lines }

/-- `is_untranslated`: empty text, a failure marker, no CJK character and a
predominantly-ASCII alphabetic run of length at least 8 count as untranslated;
any CJK character counts as translated.  The float test `ascii_ratio > 0.7`
is the exact comparison `10 * ascii_count > 7 * alpha_count`. -/
def is_untranslated (b : Block) : Bool :=
  let text := stripChars (joinSpace b.lines)
  if text.isEmpty then true
  else if containsSub (str "[UNTRANSLATED]") text
       || containsSub (str "[TRANSLATION_FAILED]") text then true
  else if text.any isCJK then false
  else
    let alpha := text.filter pyIsAlpha
    if alpha.isEmpty then false
    else
      decide (10 * (alpha.filter fun c => c.toNat < 128).length > 7 * alpha.length)
        && decide (8 ≤ alpha.length)

/-- The scan `[i for i, b in enumerate(final_blocks) if is_untranslated(b)]`. -/
def untranslatedPositions (blocks : List Block) : List Nat :=
  (blocks.enum.filter fun p => is_untranslated p.2).map Prod.fst

/-- The write-back loop of `postprocess_retry_loop`:
`for pos, new_block in zip(missed_positions, retranslated): final_blocks[pos] = new_block`. -/
def writeBack (blocks : List Block) (positions : List Nat) (news : List Block) : List Block :=
  (positions.zip news).foldl (fun bs p => bs.set p.1 p.2) blocks

/-- The iteration body of `postprocess_retry_loop`, with the remaining fuel of
the `for iteration in range(1, max_iterations + 1)` loop made explicit.
`oracle i`/`orders i` give the reply function and completion order of pass
`i`.  Returns the final block list together with the number of retry passes
actually performed. -/
def retryAux (style verb hum knowl : Str) (oracle : Nat → Str → Option Str)
    (orders : Nat → List Nat) : Nat → Nat → List Block → List Block × Nat
  | _, 0, blocks => (blocks, 0)
  | iter, fuel + 1, blocks =>
    let missed := untranslatedPositions blocks
    if missed.isEmpty then (blocks, 0)
    else
      let missed_blocks := missed.filterMap blocks.get?
      let retranslated :=
        translate_blocks missed_blocks style verb hum knowl (oracle iter) (orders iter)
      let blocks' := writeBack blocks missed retranslated
      let r := retryAux style verb hum knowl oracle orders (iter + 1) fuel blocks'
      (r.1, r.2 + 1)

/-- `postprocess_retry_loop`: up to `max_iterations` passes, each re-running
`translate_blocks` on exactly the currently untranslated blocks and writing
the results back at their original positions; stops early when a scan finds
nothing untranslated. -/
def postprocess_retry_loop (final_blocks : List Block) (style verb hum knowl : Str)
    (oracle : Nat → Str → Option Str) (orders : Nat → List Nat)
    (max_iterations : Nat) : List Block :=
  (retryAux style verb hum knowl oracle orders 1 max_iterations final_blocks).1

/-- The number of retry passes performed by `postprocess_retry_loop`. -/
def retryPassCount (final_blocks : List Block) (style verb hum knowl : Str)
    (oracle : Nat → Str → Option Str) (orders : Nat → List Nat)
    (max_iterations : Nat) : Nat :=
  (retryAux style verb hum knowl oracle orders 1 max_iterations final_blocks).2

/-! ### `humanize_text` -/

/-- Fuel-indexed worker for `replaceAll`; fuel `s.length` always suffices
because every step consumes at least one character of `s`. -/
def replaceAllFuel (pat rep : Str) : Nat → Str → Str
  | 0, s => s
  | _ + 1, [] => []
  | f + 1, c :: t =>
    if pat.isPrefixOf (c :: t) && !pat.isEmpty then
      rep ++ replaceAllFuel pat rep f ((c :: t).drop pat.length)
    else c :: replaceAllFuel pat rep f t

/-- Models Python `str.replace(pat, rep)` for a non-empty literal pattern:
replace the leftmost occurrences left to right.  (The call sites in
`humanize_text` all use non-empty literals; an empty pattern is returned
unchanged here.) -/
def replaceAll (pat rep s : Str) : Str :=
  replaceAllFuel pat rep s.length s

/-- Models `re.sub(r'\s+', ' ', text)`: every maximal whitespace run becomes a
single space.  The boolean argument records whether the previous character was
part of a whitespace run. -/
def collapseAux : Bool → Str → Str
  | _, [] => []
  | prevWs, c :: t =>
    if pyIsSpace c then
      if prevWs then collapseAux true t else ' ' :: collapseAux true t
    else c :: collapseAux false t

/-- Models `re.sub(r'\s+', ' ', text)`. -/
def collapseWs (s : Str) : Str := collapseAux false s

/-- The rule loop of `humanize_text`: apply each configured
pattern-replacement rule in order; an application that raises (`None` in the
model, the `except: pass` path of the source) leaves the text of that step
unchanged.  `reSub` abstracts `re.sub(pattern, replacement, text)`. -/
def applyConfiguredRules (reSub : Str × Str → Str → Option Str)
    (rules : List (Str × Str)) (text : Str) : Str :=
  rules.foldl (fun t r =>
    match reSub r t with
    | some t' => t'
    | none => t) text

/-- The fixed built-in substitutions of `humanize_text` (step 1 of the
source). -/
def builtinSubstitutions (text : Str) : Str :=
  let text := replaceAll (str "此外，") (str "另外，") text
  let text := replaceAll (str "总而言之，") (str "简单说，") text
  let text := replaceAll (str "不可或缺") (str "很重要") text
  replaceAll (str "意味着") (str "说明") text

/-- The punctuation normalization of `humanize_text` (step 2 of the source):
`text.replace(",", "，").replace("?", "？").replace("!", "！")`. -/
def normalizePunct (text : Str) : Str :=
  replaceAll (str "!") (str "！") (replaceAll (str "?") (str "？") (replaceAll (str ",") (str "，") text))

/-- The whitespace cleanup of `humanize_text` (step 3 of the source):
`re.sub(r'\s+', ' ', text).strip()`. -/
def trimSpaces (text : Str) : Str :=
  stripChars (collapseWs text)

/-- `humanize_text`: configured regex rules, then the built-in substitutions,
then punctuation normalization, then whitespace cleanup, in that order. -/
def humanize_text (reSub : Str × Str → Str → Option Str) (rules : List (Str × Str))
    (text : Str) : Str :=
  let text := applyConfiguredRules reSub rules text
  let text := builtinSubstitutions text
  let text := normalizePunct text
  trimSpaces text

example : replaceAll (str "ab") (str "X") (str "zababy") = str "zXXy" := by decide
example : collapseWs (str "a  b \t c") = str "a b c" := by decide
example : trimSpaces (str "  你好,  世界  ") = str "你好, 世界" := by decide
example :
    humanize_text (fun _ t => some t) [] (str " 你好,世界!  此外，good ") =
      str "你好，世界！ 另外，good" := by decide

/-! ### Helper lemmas -/

theorem mergeBlock_index (m : List (Str × Str)) (b : Block) : (mergeBlock m b).index = b.index := by
  unfold mergeBlock
  cases mapLookup (natKey b.index) m <;> rfl

theorem mergeBlock_tstart (m : List (Str × Str)) (b : Block) :
    (mergeBlock m b).tstart = b.tstart := by
  unfold mergeBlock
  cases mapLookup (natKey b.index) m <;> rfl

theorem mergeBlock_tend (m : List (Str × Str)) (b : Block) : (mergeBlock m b).tend = b.tend := by
  unfold mergeBlock
  cases mapLookup (natKey b.index) m <;> rfl

theorem translate_blocks_length (blocks : List Block) (style verb hum knowl : Str)
    (oracle : Str → Option Str) (order : List Nat) :
    (translate_blocks blocks style verb hum knowl oracle order).length = blocks.length := by
  simp [translate_blocks]

theorem range_filterMap_get {α β : Type} (l : List α) (g : α → β) :
    (List.range l.length).filterMap (fun i => (l.get? i).map g) = l.map g := by
  induction l with
  | nil => simp
  | cons a t ih =>
    rw [List.length_cons, List.range_succ_eq_map]
    simp only [List.filterMap_cons, List.get?_cons_zero, Option.map_some', List.filterMap_map,
      Function.comp_def, List.get?_cons_succ, List.map_cons]
    rw [ih]

/-! ### Claim C1 -/

/-- C1.  For every input list of blocks (and any style/snippet configuration,
any oracle behaviour and any worker completion order), the output of
`translate_blocks` has the same length as the input, the identifier sequence
is unchanged position by position, and the non-`lines` fields (`index`,
`tstart`, `tend`) of every block are unchanged: only `lines` may differ. -/
theorem translate_blocks_preserves_shape (blocks : List Block) (style verb hum knowl : Str)
    (oracle : Str → Option Str) (order : List Nat) :
    (translate_blocks blocks style verb hum knowl oracle order).length = blocks.length ∧
    (translate_blocks blocks style verb hum knowl oracle order).map Block.index =
      blocks.map Block.index ∧
    (translate_blocks blocks style verb hum knowl oracle order).map Block.tstart =
      blocks.map Block.tstart ∧
    (translate_blocks blocks style verb hum knowl oracle order).map Block.tend =
      blocks.map Block.tend := by
  refine ⟨translate_blocks_length _ _ _ _ _ _ _, ?_, ?_, ?_⟩ <;>
    simp only [translate_blocks, List.map_map] <;>
    apply List.map_congr_left <;>
    intro b _
  · exact mergeBlock_index _ b
  · exact mergeBlock_tstart _ b
  · exact mergeBlock_tend _ b

/-! ### Claim C2 -/

/-- C2, counterexample.  `generate_batch` itself returns results in worker
completion order, not sorted by chunk index: with two tasks and completions
arriving in the order second-then-first (a legitimate completion order, i.e. a
permutation of the task positions), the returned sequence is not ordered by
ascending chunk index. -/
theorem generate_batch_completion_order_counterexample :
    List.Perm [1, 0] (List.range 2) ∧
    (generate_batch [⟨0, [], str "p0"⟩, ⟨1, [], str "p1"⟩] (fun _ => none) [1, 0]).map Res.index
      = [1, 0] ∧
    ¬ List.Sorted resLE
      (generate_batch [⟨0, [], str "p0"⟩, ⟨1, [], str "p1"⟩] (fun _ => none) [1, 0]) := by
  refine ⟨by decide, by decide, ?_⟩
  rw [show generate_batch [⟨0, [], str "p0"⟩, ⟨1, [], str "p1"⟩] (fun _ => none) [1, 0]
      = [⟨1, [], str "p1", none⟩, ⟨0, [], str "p0", none⟩] from rfl]
  simp only [List.sorted_cons]
  intro h
  have := h.1 ⟨0, [], str "p0", none⟩ (by simp)
  simp [resLE] at this

/-- C2, amended.  For every task list, every oracle and every completion
order that is a permutation of the task positions, `generate_batch` returns
exactly one result per submitted task (in completion order), and the caller's
sort by chunk index (`sortResults`, the `results.sort(key=lambda x: x['index'])`
line of `translate_blocks`) yields that same multiset of results ordered by
ascending chunk index. -/
theorem generate_batch_sorted_after_caller_sort (tasks : List BatchTask)
    (oracle : Str → Option Str) (order : List Nat)
    (hperm : List.Perm order (List.range tasks.length)) :
    List.Perm (sortResults (generate_batch tasks oracle order))
      (tasks.map fun t => ⟨t.index, t.chunk, t.prompt, oracle t.prompt⟩) ∧
    List.Sorted resLE (sortResults (generate_batch tasks oracle order)) := by
  constructor
  · have h1 : List.Perm (generate_batch tasks oracle order)
        ((List.range tasks.length).filterMap
          fun i => (tasks.get? i).map fun t => ⟨t.index, t.chunk, t.prompt, oracle t.prompt⟩) :=
      hperm.filterMap _
    have h2 := range_filterMap_get tasks
      (fun t => (⟨t.index, t.chunk, t.prompt, oracle t.prompt⟩ : Res))
    exact (List.perm_insertionSort resLE _).trans (h1.trans (h2 ▸ List.Perm.refl _))
  · exact List.sorted_insertionSort resLE _

/-- C2, witness for the amended theorem at a concrete input. -/
theorem generate_batch_sorted_witness :
    List.Sorted resLE
      (sortResults (generate_batch [⟨0, [], str "p0"⟩, ⟨1, [], str "p1"⟩] (fun _ => none) [1, 0])) :=
  (generate_batch_sorted_after_caller_sort [⟨0, [], str "p0"⟩, ⟨1, [], str "p1"⟩]
    (fun _ => none) [1, 0] (by decide)).2

/-! ### Claim C7 -/

theorem _call_openai_compatible_nokey (outcome : HttpOutcome) :
    _call_openai_compatible none outcome = none := rfl

theorem _call_gemini_nokey (outcome : HttpOutcome) : _call_gemini none outcome = none := rfl

theorem _call_openai_compatible_failure (k : Option Str) :
    _call_openai_compatible k .transportError = none ∧
    (∀ s, _call_openai_compatible k (.httpError s) = none) ∧
    _call_openai_compatible k .malformedBody = none := by
  cases k <;> exact ⟨rfl, fun _ => rfl, rfl⟩

theorem _call_gemini_failure (k : Option Str) :
    _call_gemini k .transportError = none ∧
    (∀ s, _call_gemini k (.httpError s) = none) ∧
    _call_gemini k .malformedBody = none := by
  cases k <;> exact ⟨rfl, fun _ => rfl, rfl⟩

/-- C7.  The request executor is a total function into `Option`: for every
prompt-independent configuration it returns a string or `none` and never
propagates a failure.  A missing credential for the resolved provider, a
transport error, a non-2xx HTTP status, and a malformed response body all
yield `none`, for `generate_content` and hence for both provider helpers it
dispatches to. -/
theorem generate_content_total_null_on_failure (model_name : Str)
    (keys : LLMProvider → Option Str) (outcome : HttpOutcome) :
    (keys (_get_provider model_name) = none →
      generate_content model_name keys outcome = none) ∧
    (outcome = .transportError → generate_content model_name keys outcome = none) ∧
    (∀ s, outcome = .httpError s → generate_content model_name keys outcome = none) ∧
    (outcome = .malformedBody → generate_content model_name keys outcome = none) := by
  unfold generate_content
  cases hp : _get_provider model_name
  case gemini =>
    refine ⟨fun h => ?_, fun h => ?_, fun s h => ?_, fun h => ?_⟩
    · rw [h]; exact _call_gemini_nokey outcome
    · rw [h]; exact (_call_gemini_failure _).1
    · rw [h]; exact (_call_gemini_failure _).2.1 s
    · rw [h]; exact (_call_gemini_failure _).2.2
  all_goals
    refine ⟨fun h => ?_, fun h => ?_, fun s h => ?_, fun h => ?_⟩
    · rw [h]; exact _call_openai_compatible_nokey outcome
    · rw [h]; exact (_call_openai_compatible_failure _).1
    · rw [h]; exact (_call_openai_compatible_failure _).2.1 s
    · rw [h]; exact (_call_openai_compatible_failure _).2.2

/-- C7, witness at concrete inputs: a missing key and a malformed body each
yield `none`. -/
theorem generate_content_null_witness :
    generate_content (str "gpt-4") (fun _ => none) (.ok (str "hi")) = none ∧
    generate_content (str "kimi-latest") (fun _ => some (str "k")) .malformedBody = none := by
  constructor
  · exact (generate_content_total_null_on_failure (str "gpt-4") (fun _ => none)
      (.ok (str "hi"))).1 rfl
  · exact (generate_content_total_null_on_failure (str "kimi-latest") (fun _ => some (str "k"))
      .malformedBody).2.2.2 rfl

/-! ### Claim C10 -/

theorem _get_provider_ne_siliconflow (model_name : Str) :
    _get_provider model_name ≠ .siliconflow := by
  simp only [_get_provider]
  split_ifs <;> decide

/-- C10, counterexample.  An identifier containing `deepseek` does not always
resolve to the DeepSeek provider: `"gpt-deepseek"` contains `deepseek` but
resolves to OpenAI, because the `gpt` family marker is tested first. -/
theorem get_provider_deepseek_counterexample :
    containsSub (str "deepseek") (toLowerStr (str "gpt-deepseek")) = true ∧
    _get_provider (str "gpt-deepseek") = .openai ∧
    _get_provider (str "gpt-deepseek") ≠ .deepseek := by
  refine ⟨by decide, by decide, by decide⟩

/-- C10, amended.  `_get_provider` never returns the SiliconFlow provider, so
the SiliconFlow dialect branch of `generate_content` is unreachable (replacing
that branch by a sentinel does not change the function); an identifier
containing `deepseek` and none of the family markers tested before it
(`gpt`, `moonshot`, `kimi`, `qwen`, `glm`) resolves to the DeepSeek provider
(in particular the SiliconFlow-hosted name `deepseek-ai/DeepSeek-V3` does);
and an identifier containing none of the listed family markers resolves to
the Gemini default. -/
theorem get_provider_routing (model_name : Str) (keys : LLMProvider → Option Str)
    (outcome : HttpOutcome) :
    _get_provider model_name ≠ .siliconflow ∧
    generate_content model_name keys outcome =
      generate_content_markSiliconflow model_name keys outcome ∧
    (containsSub (str "deepseek") (toLowerStr model_name) = true →
      containsSub (str "gpt") (toLowerStr model_name) = false →
      containsSub (str "moonshot") (toLowerStr model_name) = false →
      containsSub (str "kimi") (toLowerStr model_name) = false →
      containsSub (str "qwen") (toLowerStr model_name) = false →
      containsSub (str "glm") (toLowerStr model_name) = false →
      _get_provider model_name = .deepseek) ∧
    (containsSub (str "gpt") (toLowerStr model_name) = false →
      containsSub (str "moonshot") (toLowerStr model_name) = false →
      containsSub (str "kimi") (toLowerStr model_name) = false →
      containsSub (str "qwen") (toLowerStr model_name) = false →
      containsSub (str "glm") (toLowerStr model_name) = false →
      containsSub (str "deepseek") (toLowerStr model_name) = false →
      _get_provider model_name = .gemini) := by
  refine ⟨_get_provider_ne_siliconflow model_name, ?_, ?_, ?_⟩
  · unfold generate_content generate_content_markSiliconflow
    cases hp : _get_provider model_name
    case siliconflow => exact absurd hp (_get_provider_ne_siliconflow model_name)
    all_goals rfl
  · intro h1 h2 h3 h4 h5 h6
    simp [_get_provider, h1, h2, h3, h4, h5, h6]
  · intro h1 h2 h3 h4 h5 h6
    simp [_get_provider, h1, h2, h3, h4, h5, h6]

/-- C10, witness for the amended theorem at concrete inputs:
`deepseek-ai/DeepSeek-V3` resolves to DeepSeek and an unmatched identifier
resolves to the Gemini default. -/
theorem get_provider_routing_witness :
    _get_provider (str "deepseek-ai/DeepSeek-V3") = .deepseek ∧
    _get_provider (str "claude-3") = .gemini := by
  constructor
  · exact (get_provider_routing (str "deepseek-ai/DeepSeek-V3") (fun _ => none)
      .transportError).2.2.1 (by decide) (by decide) (by decide) (by decide) (by decide)
      (by decide)
  · exact (get_provider_routing (str "claude-3") (fun _ => none)
      .transportError).2.2.2 (by decide) (by decide) (by decide) (by decide) (by decide)
      (by decide)

/-! ### Claim C8 -/

theorem RateLimiter.wait_admission (interval last now : ℚ) :
    now + (RateLimiter.wait interval last now).2 = (RateLimiter.wait interval last now).1 := by
  unfold RateLimiter.wait
  simp only []
  split <;> ring

theorem RateLimiter.wait_advances (interval last now : ℚ) :
    last + interval ≤ (RateLimiter.wait interval last now).1 := by
  unfold RateLimiter.wait
  simp only []
  split
  · simp
  · next h => linarith [not_lt.mp h]

theorem RateLimiter.admissions_chain (interval last : ℚ) (times : List ℚ) :
    List.Chain' (fun a b => a + interval ≤ b) (RateLimiter.admissions interval last times) := by
  induction times generalizing last with
  | nil => exact List.chain'_nil
  | cons t ts ih =>
    rw [RateLimiter.admissions, List.chain'_cons']
    refine ⟨?_, ih _⟩
    intro y hy
    cases ts with
    | nil => simp [RateLimiter.admissions] at hy
    | cons t' ts' =>
      rw [RateLimiter.admissions] at hy
      simp only [List.head?_cons, Option.mem_def, Option.some.injEq] at hy
      rw [RateLimiter.wait_admission interval last t]
      rw [← hy, RateLimiter.wait_admission]
      exact RateLimiter.wait_advances _ _ _

/-- C8.  For a rate limiter configured with a positive budget of `rpm`
requests per minute (`interval = 60 / rpm`), any two admissions of the
`wait` operation are at least `60 / rpm` apart: for every initial
`last_request_time` and every sequence of clock readings taken by successive
lock holders, the admission times (lock release plus the sleep performed
outside the lock, as computed by the critical section `RateLimiter.wait`) are
pairwise separated by at least the interval, across all callers. -/
theorem rate_limiter_admission_spacing (rpm last : ℚ) (times : List ℚ) (hrpm : 0 < rpm) :
    List.Pairwise (fun a b => a + RateLimiter.interval rpm ≤ b)
      (RateLimiter.admissions (RateLimiter.interval rpm) last times) := by
  have hint : 0 ≤ RateLimiter.interval rpm := by
    unfold RateLimiter.interval
    positivity
  have htrans : Transitive (fun a b : ℚ => a + RateLimiter.interval rpm ≤ b) := by
    intro a b c hab hbc
    have : b ≤ b + RateLimiter.interval rpm := by linarith
    linarith
  haveI : IsTrans ℚ (fun a b : ℚ => a + RateLimiter.interval rpm ≤ b) := ⟨htrans⟩
  exact List.chain'_iff_pairwise.mp
    (RateLimiter.admissions_chain (RateLimiter.interval rpm) last times)

/-- C8, witness: with a budget of 60 requests per minute and three
contending callers, consecutive admissions are at least one second apart. -/
theorem rate_limiter_admission_spacing_witness :
    List.Pairwise (fun a b => a + RateLimiter.interval 60 ≤ b)
      (RateLimiter.admissions (RateLimiter.interval 60) 0 [0, 0, 1]) :=
  rate_limiter_admission_spacing 60 0 [0, 0, 1] (by norm_num)

/-! ### Claim C5 -/

theorem containsSub_head_mem (d : Char) (n h : Str) (hc : containsSub (d :: n) h = true) :
    d ∈ h := by
  induction h with
  | nil => simp [containsSub] at hc
  | cons c t ih =>
    rw [containsSub, Bool.or_eq_true] at hc
    rcases hc with hpre | hrec
    · simp only [List.isPrefixOf, Bool.and_eq_true, beq_iff_eq] at hpre
      simp [hpre.1]
    · exact List.mem_cons_of_mem _ (ih hrec)

theorem dropWhile_eq_self_of {p : Char → Bool} {l : Str} (h : ∀ c ∈ l, p c = false) :
    l.dropWhile p = l := by
  cases l with
  | nil => rfl
  | cons c t =>
    rw [List.dropWhile_cons, h c (by simp)]
    simp

theorem stripChars_eq_self {l : Str} (h : ∀ c ∈ l, pyIsSpace c = false) :
    stripChars l = l := by
  unfold stripChars
  rw [dropWhile_eq_self_of h]
  rw [dropWhile_eq_self_of (fun c hc => h c (List.mem_reverse.mp hc))]
  exact List.reverse_reverse l

theorem asciiAlpha_bounds {c : Char} (h : isAsciiAlpha c = true) :
    65 ≤ c.toNat ∧ c.toNat ≤ 122 := by
  simp only [isAsciiAlpha, Bool.or_eq_true, Bool.and_eq_true, decide_eq_true_eq] at h
  rcases h with ⟨h1, h2⟩ | ⟨h1, h2⟩ <;> omega

theorem asciiAlpha_not_space {c : Char} (h : isAsciiAlpha c = true) : pyIsSpace c = false := by
  have hb := asciiAlpha_bounds h
  simp only [pyIsSpace, Bool.or_eq_false_iff, decide_eq_false_iff_not]
  omega

theorem asciiAlpha_not_cjk {c : Char} (h : isAsciiAlpha c = true) : isCJK c = false := by
  have hb := asciiAlpha_bounds h
  simp only [isCJK, Bool.and_eq_false_iff, decide_eq_false_iff_not]
  omega

theorem asciiAlpha_pyIsAlpha {c : Char} (h : isAsciiAlpha c = true) : pyIsAlpha c = true := by
  simp only [isAsciiAlpha, Bool.or_eq_true, Bool.and_eq_true, decide_eq_true_eq] at h
  simp only [pyIsAlpha, Bool.or_eq_true, Bool.and_eq_true, decide_eq_true_eq]
  tauto

theorem asciiAlpha_lt128 {c : Char} (h : isAsciiAlpha c = true) : decide (c.toNat < 128) = true := by
  have hb := asciiAlpha_bounds h
  simp only [decide_eq_true_eq]
  omega

theorem joinSpace_singleton (s : Str) : joinSpace [s] = s := by
  simp [joinSpace, List.intercalate]

theorem noMarker_of_asciiAlpha {s : Str} (h : ∀ c ∈ s, isAsciiAlpha c = true) (tail : Str) :
    containsSub ('[' :: tail) s = false := by
  by_contra hne
  have hc : containsSub ('[' :: tail) s = true := by
    cases hx : containsSub ('[' :: tail) s
    · exact absurd hx hne
    · rfl
  have hmem := containsSub_head_mem _ _ _ hc
  have := h _ hmem
  simp [isAsciiAlpha] at this

/-- C5.  The untranslated classifier's boundary behaviour: a block whose
(stripped, joined) text contains at least one CJK character and no failure
marker is classified translated (`false`), even when mixed with
source-script words; a pure-ASCII alphabetic string of length at least 8 is
classified untranslated (`true`); and a 3-character ASCII alphabetic string
is classified translated (`false`). -/
theorem is_untranslated_boundary :
    (∀ b : Block,
      (stripChars (joinSpace b.lines)).any isCJK = true →
      containsSub (str "[UNTRANSLATED]") (stripChars (joinSpace b.lines)) = false →
      containsSub (str "[TRANSLATION_FAILED]") (stripChars (joinSpace b.lines)) = false →
      is_untranslated b = false) ∧
    (∀ (idx : Nat) (ts te s : Str), 8 ≤ s.length → (∀ c ∈ s, isAsciiAlpha c = true) →
      is_untranslated ⟨idx, [s], ts, te⟩ = true) ∧
    (∀ (idx : Nat) (ts te s : Str), s.length = 3 → (∀ c ∈ s, isAsciiAlpha c = true) →
      is_untranslated ⟨idx, [s], ts, te⟩ = false) := by
  refine ⟨?_, ?_, ?_⟩
  · intro b hcjk hm1 hm2
    have hne : (stripChars (joinSpace b.lines)).isEmpty = false := by
      cases hsl : stripChars (joinSpace b.lines) with
      | nil => rw [hsl] at hcjk; simp at hcjk
      | cons c t => rfl
    simp [is_untranslated, hne, hm1, hm2, hcjk]
  · intro idx ts te s hlen halpha
    have hnows : ∀ c ∈ s, pyIsSpace c = false := fun c hc => asciiAlpha_not_space (halpha c hc)
    have hstrip : stripChars (joinSpace [s]) = s := by
      rw [joinSpace_singleton]; exact stripChars_eq_self hnows
    have hm1 : containsSub (str "[UNTRANSLATED]") s = false := noMarker_of_asciiAlpha halpha _
    have hm2 : containsSub (str "[TRANSLATION_FAILED]") s = false :=
      noMarker_of_asciiAlpha halpha _
    have hcjk : s.any isCJK = false := by
      rw [Bool.eq_false_iff]
      intro hx
      rw [List.any_eq_true] at hx
      obtain ⟨c, hc, hcjk⟩ := hx
      rw [asciiAlpha_not_cjk (halpha c hc)] at hcjk
      exact Bool.false_ne_true hcjk
    have hfilter : s.filter pyIsAlpha = s :=
      List.filter_eq_self.mpr fun c hc => asciiAlpha_pyIsAlpha (halpha c hc)
    have hfilter128 : s.filter (fun c => decide (c.toNat < 128)) = s :=
      List.filter_eq_self.mpr fun c hc => asciiAlpha_lt128 (halpha c hc)
    have hne : s.isEmpty = false := by
      cases s with
      | nil => simp at hlen
      | cons c t => rfl
    simp only [is_untranslated, hstrip, hne, Bool.false_eq_true, if_false, hm1, hm2,
      Bool.or_self, hcjk, hfilter, hfilter128, Bool.and_eq_true, decide_eq_true_eq]
    exact ⟨by omega, hlen⟩
  · intro idx ts te s hlen halpha
    have hnows : ∀ c ∈ s, pyIsSpace c = false := fun c hc => asciiAlpha_not_space (halpha c hc)
    have hstrip : stripChars (joinSpace [s]) = s := by
      rw [joinSpace_singleton]; exact stripChars_eq_self hnows
    have hm1 : containsSub (str "[UNTRANSLATED]") s = false := noMarker_of_asciiAlpha halpha _
    have hm2 : containsSub (str "[TRANSLATION_FAILED]") s = false :=
      noMarker_of_asciiAlpha halpha _
    have hcjk : s.any isCJK = false := by
      rw [Bool.eq_false_iff]
      intro hx
      rw [List.any_eq_true] at hx
      obtain ⟨c, hc, hcjk⟩ := hx
      rw [asciiAlpha_not_cjk (halpha c hc)] at hcjk
      exact Bool.false_ne_true hcjk
    have hfilter : s.filter pyIsAlpha = s :=
      List.filter_eq_self.mpr fun c hc => asciiAlpha_pyIsAlpha (halpha c hc)
    have hne : s.isEmpty = false := by
      cases s with
      | nil => simp at hlen
      | cons c t => rfl
    simp only [is_untranslated, hstrip, hne, Bool.false_eq_true, if_false, hm1, hm2,
      Bool.or_self, hcjk, hfilter, Bool.and_eq_false_iff, decide_eq_false_iff_not]
    exact Or.inr (by omega)

/-- C5, witness at the three concrete boundary inputs of the claim. -/
theorem is_untranslated_boundary_witness :
    is_untranslated ⟨0, [str "中X"], [], []⟩ = false ∧
    is_untranslated ⟨0, [str "abcdefgh"], [], []⟩ = true ∧
    is_untranslated ⟨0, [str "abc"], [], []⟩ = false := by
  refine ⟨?_, ?_, ?_⟩
  · exact is_untranslated_boundary.1 ⟨0, [str "中X"], [], []⟩ (by decide) (by decide) (by decide)
  · exact is_untranslated_boundary.2.1 0 [] [] (str "abcdefgh") (by decide) (by decide)
  · exact is_untranslated_boundary.2.2 0 [] [] (str "abc") (by decide) (by decide)

/-! ### Claim C6 -/

/-- C6.  The merge applied by `translate_blocks` at any position `i`: when
the block's identifier has an entry in the parsed reply map (which by
construction holds only non-empty contents), the output block at `i` is a
copy whose `lines` is replaced by that entry; when the identifier is absent
from the map, the output block at `i` is exactly the input block, untouched. -/
theorem translate_blocks_merge_frame (blocks : List Block) (style verb hum knowl : Str)
    (oracle : Str → Option Str) (order : List Nat) (i : Nat) (h : i < blocks.length) :
    (∀ t, mapLookup (natKey (blocks.getD i default).index)
        (replyMapOf blocks style verb hum knowl oracle order) = some t →
      (translate_blocks blocks style verb hum knowl oracle order).getD i default =
        { blocks.getD i default with lines := [t] }) ∧
    (mapLookup (natKey (blocks.getD i default).index)
        (replyMapOf blocks style verb hum knowl oracle order) = none →
      (translate_blocks blocks style verb hum knowl oracle order).getD i default =
        blocks.getD i default) := by
  have hmap : (translate_blocks blocks style verb hum knowl oracle order).getD i default =
      mergeBlock (replyMapOf blocks style verb hum knowl oracle order)
        (blocks.getD i default) := by
    rw [translate_blocks, List.getD_eq_getElem?_getD, List.getElem?_map,
      List.getElem?_eq_getElem h, List.getD_eq_getElem?_getD, List.getElem?_eq_getElem h]
    rfl
  constructor
  · intro t ht
    rw [hmap]
    unfold mergeBlock
    rw [ht]
  · intro ht
    rw [hmap]
    unfold mergeBlock
    rw [ht]

/-- Concrete blocks 6, 7, 8 for the merge example of the claim. -/
def exBlocks678 : List Block := [⟨6, [str "aa"], [], []⟩, ⟨7, [str "bb"], [], []⟩, ⟨8, [str "cc"], [], []⟩]

/-- A reply covering identifiers 6 and 8 but omitting 7. -/
def exOracle68 : Str → Option Str := fun _ => some (str "[6] 你好\n[8] 再见")

/-- C6, witness: with a reply that includes identifiers 6 and 8 but omits 7,
segment 6 is updated and segment 7 keeps its prior text. -/
theorem translate_blocks_merge_frame_witness :
    (translate_blocks exBlocks678 (str "casual") [] [] [] exOracle68 [0]).getD 0 default =
      { exBlocks678.getD 0 default with lines := [str "你好"] } ∧
    (translate_blocks exBlocks678 (str "casual") [] [] [] exOracle68 [0]).getD 1 default =
      exBlocks678.getD 1 default := by
  constructor
  · exact (translate_blocks_merge_frame exBlocks678 (str "casual") [] [] [] exOracle68 [0] 0
      (by decide)).1 (str "你好") (by decide)
  · exact (translate_blocks_merge_frame exBlocks678 (str "casual") [] [] [] exOracle68 [0] 1
      (by decide)).2 (by decide)

/-! ### Claim C3 -/

/-- C3, evaluation at the failing input.  A reply line `"[1] "` matches the
identifier pattern with empty trimmed content.  At the `smart_translate_chunk`
parse site (which lacks the `if content:` guard of the other parse sites) the
segment's previous text `"Hello"` IS overwritten with the empty string,
contradicting the claim; at the `translate_blocks` parse site the guard holds
and the previous text is kept. -/
theorem smart_translate_chunk_empty_overwrite :
    smart_translate_chunk [⟨1, [str "Hello"], [], []⟩] (str "casual") [] []
      (fun _ => some (str "[1] ")) = [⟨1, [[]], [], []⟩] ∧
    translate_blocks [⟨1, [str "Hello"], [], []⟩] (str "casual") [] [] []
      (fun _ => some (str "[1] ")) [0] = [⟨1, [str "Hello"], [], []⟩] := by
  refine ⟨by decide, by decide⟩

/-! ### Claim C4 -/

theorem writeBack_length (blocks : List Block) (positions : List Nat) (news : List Block) :
    (writeBack blocks positions news).length = blocks.length := by
  unfold writeBack
  generalize positions.zip news = ps
  induction ps generalizing blocks with
  | nil => rfl
  | cons p pt ih => simp [List.foldl_cons, ih, List.length_set]

theorem retryAux_passes_le (style verb hum knowl : Str) (oracle : Nat → Str → Option Str)
    (orders : Nat → List Nat) :
    ∀ (fuel iter : Nat) (blocks : List Block),
      (retryAux style verb hum knowl oracle orders iter fuel blocks).2 ≤ fuel := by
  intro fuel
  induction fuel with
  | zero => intro iter blocks; simp [retryAux]
  | succ f ih =>
    intro iter blocks
    rw [retryAux]
    split
    · exact Nat.zero_le _
    · exact Nat.succ_le_succ (ih _ _)

theorem retryAux_length (style verb hum knowl : Str) (oracle : Nat → Str → Option Str)
    (orders : Nat → List Nat) :
    ∀ (fuel iter : Nat) (blocks : List Block),
      (retryAux style verb hum knowl oracle orders iter fuel blocks).1.length =
        blocks.length := by
  intro fuel
  induction fuel with
  | zero => intro iter blocks; rfl
  | succ f ih =>
    intro iter blocks
    rw [retryAux]
    split
    · rfl
    · rw [ih]
      exact writeBack_length _ _ _

theorem retryAux_no_missed (style verb hum knowl : Str) (oracle : Nat → Str → Option Str)
    (orders : Nat → List Nat) (fuel iter : Nat) (blocks : List Block)
    (h : untranslatedPositions blocks = []) :
    retryAux style verb hum knowl oracle orders iter fuel blocks = (blocks, 0) := by
  cases fuel with
  | zero => rfl
  | succ f =>
    rw [retryAux]
    rw [if_pos (by rw [h]; rfl)]

/-- C4, amended.  `postprocess_retry_loop` always terminates (it is a total
function of its fuel), performs at most `max_iterations` retry passes,
performs zero passes and returns the input unchanged when no block is
classified untranslated at the first scan, and when the iteration cap is
reached it returns normally with a full block list of the input's length,
the still-untranslated blocks carrying their latest best-effort content
(which, per the counterexample, may differ from their pre-retry content when
a retry pass wrote a non-empty but still-untranslated reply). -/
theorem postprocess_retry_loop_bounded (blocks : List Block) (style verb hum knowl : Str)
    (oracle : Nat → Str → Option Str) (orders : Nat → List Nat) (max_iterations : Nat) :
    retryPassCount blocks style verb hum knowl oracle orders max_iterations ≤ max_iterations ∧
    (untranslatedPositions blocks = [] →
      postprocess_retry_loop blocks style verb hum knowl oracle orders max_iterations = blocks ∧
      retryPassCount blocks style verb hum knowl oracle orders max_iterations = 0) ∧
    (postprocess_retry_loop blocks style verb hum knowl oracle orders max_iterations).length =
      blocks.length := by
  refine ⟨retryAux_passes_le _ _ _ _ _ _ _ _ _, ?_, retryAux_length _ _ _ _ _ _ _ _ _⟩
  intro h
  have := retryAux_no_missed style verb hum knowl oracle orders max_iterations 1 blocks h
  unfold postprocess_retry_loop retryPassCount
  rw [this]
  exact ⟨rfl, rfl⟩

/-- C4, witness: a fully translated input triggers zero retry passes and is
returned unchanged. -/
theorem postprocess_retry_loop_bounded_witness :
    retryPassCount [⟨0, [str "你好"], [], []⟩] (str "casual") [] [] []
        (fun _ _ => none) (fun _ => []) 5 ≤ 5 ∧
    postprocess_retry_loop [⟨0, [str "你好"], [], []⟩] (str "casual") [] [] []
        (fun _ _ => none) (fun _ => []) 5 = [⟨0, [str "你好"], [], []⟩] := by
  have h := postprocess_retry_loop_bounded [⟨0, [str "你好"], [], []⟩] (str "casual") [] [] []
    (fun _ _ => none) (fun _ => []) 5
  exact ⟨h.1, (h.2.1 (by decide)).1⟩

/-- C4, counterexample to the pre-retry-content clause.  A block that starts
untranslated and whose every retry reply is a non-empty but still
predominantly-ASCII line is rewritten by the retry passes: after the
iteration cap (5 passes performed) it is still classified untranslated, yet
it carries the last reply's content `"ijklmnopqr"`, not its pre-retry content
`"abcdefgh"`. -/
theorem postprocess_retry_loop_content_counterexample :
    is_untranslated ⟨0, [str "abcdefgh"], [], []⟩ = true ∧
    postprocess_retry_loop [⟨0, [str "abcdefgh"], [], []⟩] (str "casual") [] [] []
      (fun _ _ => some (str "[0] ijklmnopqr")) (fun _ => [0]) 5 =
      [⟨0, [str "ijklmnopqr"], [], []⟩] ∧
    is_untranslated ⟨0, [str "ijklmnopqr"], [], []⟩ = true ∧
    retryPassCount [⟨0, [str "abcdefgh"], [], []⟩] (str "casual") [] [] []
      (fun _ _ => some (str "[0] ijklmnopqr")) (fun _ => [0]) 5 = 5 := by
  refine ⟨by decide, by decide, by decide, by decide⟩

/-! ### Claim C9 -/

theorem mem_replaceAllFuel {c : Char} (pat rep : Str) :
    ∀ (f : Nat) (s : Str), c ∈ replaceAllFuel pat rep f s → c ∈ rep ∨ c ∈ s := by
  intro f
  induction f with
  | zero => intro s h; exact Or.inr h
  | succ f ih =>
    intro s h
    cases s with
    | nil => simp [replaceAllFuel] at h
    | cons a t =>
      rw [replaceAllFuel] at h
      split at h
      · rw [List.mem_append] at h
        rcases h with h | h
        · exact Or.inl h
        · rcases ih _ h with h' | h'
          · exact Or.inl h'
          · exact Or.inr (List.drop_subset _ _ h')
      · rcases List.mem_cons.mp h with h' | h'
        · exact Or.inr (h' ▸ List.mem_cons_self a t)
        · rcases ih _ h' with h'' | h''
          · exact Or.inl h''
          · exact Or.inr (List.mem_cons_of_mem _ h'')

theorem mem_replaceAll {c : Char} (pat rep s : Str) (h : c ∈ replaceAll pat rep s) :
    c ∈ rep ∨ c ∈ s :=
  mem_replaceAllFuel pat rep s.length s h

theorem replaceAllFuel_single_not_mem {p : Char} {rep : Str} (hrep : p ∉ rep) :
    ∀ (f : Nat) (s : Str), s.length ≤ f → p ∉ replaceAllFuel [p] rep f s := by
  intro f
  induction f with
  | zero =>
    intro s hle
    rw [List.eq_nil_of_length_eq_zero (Nat.le_zero.mp hle)]
    simp [replaceAllFuel]
  | succ f ih =>
    intro s hle
    cases s with
    | nil => simp [replaceAllFuel]
    | cons a t =>
      rw [replaceAllFuel]
      split
      · next hcond =>
        intro hmem
        rw [List.mem_append] at hmem
        rcases hmem with hmem | hmem
        · exact hrep hmem
        · exact ih t (by simp only [List.length_cons] at hle; omega) hmem
      · next hcond =>
        have hpa : ¬(p = a) := by
          intro hpe
          apply hcond
          subst hpe
          simp [List.isPrefixOf, List.isEmpty]
        intro hmem
        rcases List.mem_cons.mp hmem with h' | h'
        · exact hpa h'
        · exact ih t (by simp only [List.length_cons] at hle; omega) h'

theorem replaceAll_single_not_mem {p : Char} {rep : Str} (hrep : p ∉ rep) (s : Str) :
    p ∉ replaceAll [p] rep s :=
  replaceAllFuel_single_not_mem hrep s.length s (Nat.le_refl _)

theorem mem_collapseAux {c : Char} : ∀ (s : Str) (b : Bool), c ∈ collapseAux b s → c = ' ' ∨ c ∈ s := by
  intro s
  induction s with
  | nil => intro b h; simp [collapseAux] at h
  | cons a t ih =>
    intro b h
    rw [collapseAux] at h
    split at h
    · split at h
      · rcases ih _ h with h' | h'
        · exact Or.inl h'
        · exact Or.inr (List.mem_cons_of_mem _ h')
      · rcases List.mem_cons.mp h with h' | h'
        · exact Or.inl h'
        · rcases ih _ h' with h'' | h''
          · exact Or.inl h''
          · exact Or.inr (List.mem_cons_of_mem _ h'')
    · rcases List.mem_cons.mp h with h' | h'
      · exact Or.inr (h' ▸ List.mem_cons_self a t)
      · rcases ih _ h' with h'' | h''
        · exact Or.inl h''
        · exact Or.inr (List.mem_cons_of_mem _ h'')

theorem collapseAux_true_head : ∀ (s : Str) (c : Char),
    (collapseAux true s).head? = some c → pyIsSpace c = false := by
  intro s
  induction s with
  | nil => intro c h; simp [collapseAux] at h
  | cons a t ih =>
    intro c h
    rw [collapseAux] at h
    split at h
    · next hws => exact ih c (by simpa using h)
    · next hws =>
      simp only [List.head?_cons, Option.some.injEq] at h
      subst h
      exact Bool.eq_false_iff.mpr hws

theorem collapseAux_chain :
    ∀ (s : Str) (b : Bool),
      List.Chain' (fun a b => ¬(pyIsSpace a = true ∧ pyIsSpace b = true)) (collapseAux b s) := by
  intro s
  induction s with
  | nil => intro b; exact List.chain'_nil
  | cons a t ih =>
    intro b
    rw [collapseAux]
    split
    · next hws =>
      split
      · exact ih true
      · rw [List.chain'_cons']
        refine ⟨?_, ih true⟩
        intro y hy
        have := collapseAux_true_head t y (Option.mem_def.mp hy)
        intro hcon
        rw [this] at hcon
        exact Bool.false_ne_true hcon.2
    · next hws =>
      rw [List.chain'_cons']
      refine ⟨?_, ih false⟩
      intro y hy hcon
      exact hws hcon.1

theorem mem_stripChars {c : Char} {s : Str} (h : c ∈ stripChars s) : c ∈ s := by
  unfold stripChars at h
  have h1 := List.mem_reverse.mp h
  have h2 := (List.dropWhile_suffix pyIsSpace).subset h1
  have h3 := List.mem_reverse.mp h2
  exact (List.dropWhile_suffix pyIsSpace).subset h3

theorem stripChars_chain' {R : Char → Char → Prop} {s : Str}
    (hsymm : ∀ a b, R a b → R b a) (h : List.Chain' R s) : List.Chain' R (stripChars s) := by
  unfold stripChars
  have h1 : List.Chain' R (s.dropWhile pyIsSpace) := h.suffix (List.dropWhile_suffix _)
  have h2 : List.Chain' R ((s.dropWhile pyIsSpace).reverse) :=
    List.chain'_reverse.mpr (h1.imp fun a b hab => hsymm a b hab)
  have h3 : List.Chain' R ((s.dropWhile pyIsSpace).reverse.dropWhile pyIsSpace) :=
    h2.suffix (List.dropWhile_suffix _)
  exact List.chain'_reverse.mpr (h3.imp fun a b hab => hsymm a b hab)

theorem head?_dropWhile_not {p : Char → Bool} : ∀ (l : Str) (c : Char),
    (l.dropWhile p).head? = some c → p c = false := by
  intro l
  induction l with
  | nil => intro c h; simp at h
  | cons a t ih =>
    intro c h
    rw [List.dropWhile_cons] at h
    split at h
    · exact ih c h
    · next hpa =>
      simp only [List.head?_cons, Option.some.injEq] at h
      subst h
      exact Bool.eq_false_iff.mpr hpa

theorem getLast?_dropWhile {p : Char → Bool} (l : Str) (h : l.dropWhile p ≠ []) :
    (l.dropWhile p).getLast? = l.getLast? := by
  have hsuf : l.dropWhile p <:+ l := List.dropWhile_suffix p
  obtain ⟨pre, hpre⟩ := hsuf
  have h2 := List.getLast?_append_of_ne_nil pre h
  rw [hpre] at h2
  exact h2.symm

theorem stripChars_head_not {s : Str} (c : Char) (h : (stripChars s).head? = some c) :
    pyIsSpace c = false := by
  unfold stripChars at h
  rw [List.head?_reverse] at h
  by_cases hv : (s.dropWhile pyIsSpace).reverse.dropWhile pyIsSpace = []
  · rw [hv] at h; simp at h
  · rw [getLast?_dropWhile _ hv, List.getLast?_reverse] at h
    exact head?_dropWhile_not _ _ h

theorem stripChars_getLast_not {s : Str} (c : Char) (h : (stripChars s).getLast? = some c) :
    pyIsSpace c = false := by
  unfold stripChars at h
  rw [List.getLast?_reverse] at h
  exact head?_dropWhile_not _ _ h

theorem trimSpaces_subset {c : Char} {u : Str} (h : c ∈ trimSpaces u) : c = ' ' ∨ c ∈ u :=
  mem_collapseAux _ _ (mem_stripChars h)

theorem normalizePunct_clean (t : Str) :
    ',' ∉ normalizePunct t ∧ '?' ∉ normalizePunct t ∧ '!' ∉ normalizePunct t := by
  unfold normalizePunct
  refine ⟨?_, ?_, ?_⟩
  · intro h
    rcases mem_replaceAll _ _ _ h with h' | h'
    · simp [str] at h'
    · rcases mem_replaceAll _ _ _ h' with h'' | h''
      · simp [str] at h''
      · exact replaceAll_single_not_mem (by simp [str]) t h''
  · intro h
    rcases mem_replaceAll _ _ _ h with h' | h'
    · simp [str] at h'
    · exact replaceAll_single_not_mem (by simp [str]) _ h'
  · exact replaceAll_single_not_mem (by simp [str]) _

theorem trimSpaces_norm (u : Str) :
    List.Chain' (fun a b => ¬(pyIsSpace a = true ∧ pyIsSpace b = true)) (trimSpaces u) ∧
    (∀ c, (trimSpaces u).head? = some c → pyIsSpace c = false) ∧
    (∀ c, (trimSpaces u).getLast? = some c → pyIsSpace c = false) := by
  refine ⟨?_, ?_, ?_⟩
  · exact stripChars_chain' (fun a b hab hcon => hab ⟨hcon.2, hcon.1⟩) (collapseAux_chain u false)
  · exact fun c => stripChars_head_not c
  · exact fun c => stripChars_getLast_not c

theorem applyConfiguredRules_none {reSub : Str × Str → Str → Option Str}
    {rules : List (Str × Str)} {text : Str} (h : ∀ r ∈ rules, ∀ t, reSub r t = none) :
    applyConfiguredRules reSub rules text = text := by
  induction rules generalizing text with
  | nil => rfl
  | cons r rs ih =>
    unfold applyConfiguredRules
    rw [List.foldl_cons, h r (List.mem_cons_self r rs) text]
    exact ih fun r' hr' => h r' (List.mem_cons_of_mem _ hr')

set_option maxHeartbeats 1000000 in
/-- C9.  `humanize_text` is the composition, in order, of the configured
pattern-replacement rules, the fixed built-in substitutions, the punctuation
normalization and the whitespace cleanup; when every configured rule
application raises (is malformed), the rule phase is skipped without failing
and the result equals the run with no configured rules; and its output is a
total function of its input containing no ASCII `,`, `?` or `!`, no two
adjacent whitespace characters, and no leading or trailing whitespace. -/
theorem humanize_text_phases (reSub : Str × Str → Str → Option Str)
    (rules : List (Str × Str)) (text : Str) :
    humanize_text reSub rules text =
      trimSpaces (normalizePunct (builtinSubstitutions (applyConfiguredRules reSub rules text))) ∧
    ((∀ r ∈ rules, ∀ t, reSub r t = none) →
      humanize_text reSub rules text = humanize_text reSub [] text) ∧
    ',' ∉ humanize_text reSub rules text ∧
    '?' ∉ humanize_text reSub rules text ∧
    '!' ∉ humanize_text reSub rules text ∧
    List.Chain' (fun a b => ¬(pyIsSpace a = true ∧ pyIsSpace b = true))
      (humanize_text reSub rules text) ∧
    (∀ c, (humanize_text reSub rules text).head? = some c → pyIsSpace c = false) ∧
    (∀ c, (humanize_text reSub rules text).getLast? = some c → pyIsSpace c = false) := by
  have hnp := normalizePunct_clean (builtinSubstitutions (applyConfiguredRules reSub rules text))
  have heq : humanize_text reSub rules text =
      trimSpaces (normalizePunct (builtinSubstitutions (applyConfiguredRules reSub rules text))) :=
    rfl
  refine ⟨heq, ?_, ?_, ?_, ?_, ?_, ?_, ?_⟩
  · intro h
    unfold humanize_text
    rw [applyConfiguredRules_none h]
    rfl
  · rw [heq]
    intro h
    rcases trimSpaces_subset h with h' | h'
    · exact absurd h' (by decide)
    · exact hnp.1 h'
  · rw [heq]
    intro h
    rcases trimSpaces_subset h with h' | h'
    · exact absurd h' (by decide)
    · exact hnp.2.1 h'
  · rw [heq]
    intro h
    rcases trimSpaces_subset h with h' | h'
    · exact absurd h' (by decide)
    · exact hnp.2.2 h'
  · rw [heq]
    exact (trimSpaces_norm _).1
  · rw [heq]
    exact (trimSpaces_norm _).2.1
  · rw [heq]
    exact (trimSpaces_norm _).2.2

/-- C9, witness: with a rule set whose every application raises, the run
equals the rule-free run, and a concrete output contains no ASCII comma. -/
theorem humanize_text_phases_witness :
    humanize_text (fun _ _ => none) [(str "a", str "b")] (str " 你好,世界! ") =
      humanize_text (fun _ _ => none) [] (str " 你好,世界! ") ∧
    ',' ∉ humanize_text (fun _ _ => none) [(str "a", str "b")] (str " 你好,世界! ") := by
  have h := humanize_text_phases (fun _ _ => none) [(str "a", str "b")] (str " 你好,世界! ")
  exact ⟨h.2.1 (by intro r hr t; rfl), h.2.2.1⟩
